import Mathlib

/-!
Shallow embedding of the changeloger repository (two Go source variants:
`src/main.go`, the tag-delta variant, and `src/unnamed/part_000`, the
closed-PR-list variant) together with proofs settling the frozen claims.

Go strings are modelled as Lean `String` (a list of unicode code points);
`utf8.DecodeRuneInString` plus `s[size:]` on a valid UTF-8 Go string is
exactly the head/tail split of that code-point list. Collaborators
(the `unicode` package tables, the Masterminds `semver` parser, `net/url`,
the `git` subprocess and the GitHub HTTP API) are modelled explicitly below,
each next to the functions that use them.
-/

namespace Changeloger

/-- Model of the `unicode` package tables used by the source: `unicode.IsTitle`
(membership in the title-case category Lt), `unicode.ToTitle` (the simple
title-case mapping) and `unicode.IsSpace` (used by `strings.TrimSpace`).
The source consults these fixed tables; theorems that need facts about the
real tables (e.g. that the title-case mapping is idempotent) take them as
explicit hypotheses. -/
structure UnicodeModel where
  isTitle : Char → Bool
  toTitle : Char → Char
  isSpace : Char → Bool

/-- The ASCII fragment of Go's `unicode` tables, faithful to the real ones on
ASCII input: no ASCII character is in category Lt, `ToTitle` on ASCII equals
`ToUpper` (maps `a`-`z` to `A`-`Z`), and `IsSpace` holds for the six ASCII
space characters recognised by Go. -/
def asciiUnicode : UnicodeModel where
  isTitle _ := false
  toTitle c := if 'a' ≤ c ∧ c ≤ 'z' then Char.ofNat (c.toNat - 32) else c
  isSpace c := c = ' ' ∨ c = '\t' ∨ c = '\n' ∨ c = '\x0b' ∨ c = '\x0c' ∨ c = '\r'

/-- A degenerate unicode table in which the title-case mapping is the
identity; used only to instantiate table hypotheses in witnesses. -/
def idUnicode : UnicodeModel where
  isTitle _ := false
  toTitle c := c
  isSpace c := c = ' '

/-- A degenerate unicode table in which every character counts as title-case;
used only to instantiate the already-title-case branch in witnesses. -/
def allTitleUnicode : UnicodeModel where
  isTitle _ := true
  toTitle c := c
  isSpace c := c = ' '

/-- `title` from src/main.go lines 270-282: empty input maps to the empty
string; otherwise decode the first rune, return the input unchanged when it
is already title-case, else replace it by its title-case form and keep the
remainder verbatim. -/
def titleA (M : UnicodeModel) (s : String) : String :=
  match s.data with
  | [] => ""
  | r :: rest => if M.isTitle r then s else String.mk (M.toTitle r :: rest)

/-- Drop leading and trailing characters satisfying `p`, the action of
`strings.TrimSpace` on the code-point list. -/
def trimList (p : Char → Bool) (l : List Char) : List Char :=
  ((l.dropWhile p).reverse.dropWhile p).reverse

/-- `strings.TrimSpace`: drop leading and trailing characters for which
`unicode.IsSpace` holds. -/
def trimSpace (M : UnicodeModel) (s : String) : String :=
  String.mk (trimList M.isSpace s.data)

/-- `title` from src/unnamed/part_000 lines 224-238: identical to the
src/main.go variant except that the input is first trimmed with
`strings.TrimSpace`. -/
def titleB (M : UnicodeModel) (s : String) : String :=
  let t := trimSpace M s
  match t.data with
  | [] => ""
  | r :: rest => if M.isTitle r then t else String.mk (M.toTitle r :: rest)

example : titleA asciiUnicode "add feature" = "Add feature" := by decide
example : titleA asciiUnicode "Already Title" = "Already Title" := by decide
example : titleB asciiUnicode "  add feature " = "Add feature" := by decide

/-- `MergeInfo` from src/main.go lines 50-58 (the tag-delta variant, which
keeps the `UserEmail` field). `MergeNum` is a Go `int`, modelled as `Int`. -/
structure MergeInfo where
  commitHash : String
  userName : String
  userProfileUrl : String
  userEmail : String
  mergeNum : Int
  mergeUrl : String
  title : String
deriving DecidableEq

/-- One element of the anonymous response slice decoded in
`populateMergeWithInfo` (src/main.go lines 225-235): `html_url`, `number`,
`state`, `title`, and the user's `login` and `html_url`. -/
structure PullInfo where
  url : String
  number : Int
  state : String
  title : String
  userLogin : String
  userUrl : String
deriving DecidableEq

/-- First occurrence of `sep` as a contiguous sublist: returns the part
before it and the part after it, or `none` when `sep` does not occur.
Models the search `strings.SplitN` performs for each separator. -/
def findSub (sep : List Char) : List Char → Option (List Char × List Char)
  | [] => if sep = [] then some ([], []) else none
  | c :: cs =>
    if sep.isPrefixOf (c :: cs) then some ([], (c :: cs).drop sep.length)
    else match findSub sep cs with
      | some (b, a) => some (c :: b, a)
      | none => none

/-- `strings.SplitN(s, sep, n)` for `n ≥ 1` and non-empty `sep`: split around
the first at most `n-1` occurrences of `sep`; the last part keeps any further
occurrences. -/
def splitN (sep : List Char) : Nat → List Char → List (List Char)
  | 0, s => [s]
  | 1, s => [s]
  | n + 2, s =>
    match findSub sep s with
    | none => [s]
    | some (b, a) => b :: splitN sep (n + 1) a

/-- Decimal value of a digit run, as `strconv.Atoi` computes it. -/
def digitsToNat (l : List Char) : Nat :=
  l.foldl (fun n c => 10 * n + (c.toNat - 48)) 0

/-- `strconv.Atoi` applied to a non-empty run of decimal digits: succeeds with
the value unless it overflows a 64-bit `int`. -/
def goAtoi (digits : List Char) : Option Int :=
  if digitsToNat digits ≤ 2 ^ 63 - 1 then some (Int.ofNat (digitsToNat digits)) else none

/-- The regexp `^Merge pull request #(\d+)` of src/main.go line 173: the text
must start with the literal prefix followed by at least one digit; the
capture is the maximal digit run after it. Returns the capture. -/
def matchMergeNum (text : List Char) : Option (List Char) :=
  let lit := "Merge pull request #".data
  if lit.isPrefixOf text then
    let digits := (text.drop lit.length).takeWhile Char.isDigit
    if digits = [] then none else some digits
  else none

/-- Parsing of one merge-log line in `getGitMerges` (src/main.go lines
177-204): split into at most four fields around " --- "; skip the line unless
exactly four fields result; skip it unless field 3 matches the merge-commit
pattern; skip it when `strconv.Atoi` fails on the captured digits (the `WTF`
branch, reachable only on 64-bit overflow); otherwise build a `MergeInfo`
with hash, author name, author email and the parsed number. -/
def parseMergeLine (line : String) : Option MergeInfo :=
  match splitN " --- ".data 4 line.data with
  | [h, an, ae, s] =>
    match matchMergeNum s with
    | none => none
    | some digits =>
      match goAtoi digits with
      | none => none
      | some num =>
        some { commitHash := String.mk h, userName := String.mk an,
               userProfileUrl := "", userEmail := String.mk ae,
               mergeNum := num, mergeUrl := "", title := "" }
  | _ => none

/-- The comparison under which the merge list ends up ordered: the source
sorts with `sort.Slice(merges, less i j := MergeNum_i > MergeNum_j)`,
whose postcondition is a list nonincreasing in `MergeNum`. -/
def mergeGE (a b : MergeInfo) : Prop := b.mergeNum ≤ a.mergeNum

instance : DecidableRel mergeGE := fun a b => inferInstanceAs (Decidable (b.mergeNum ≤ a.mergeNum))

instance : IsTotal MergeInfo mergeGE := ⟨fun a b => le_total b.mergeNum a.mergeNum⟩

instance : IsTrans MergeInfo mergeGE := ⟨fun _ _ _ h1 h2 => le_trans h2 h1⟩

/-- The `sort.Slice` call of src/main.go lines 209-211. Go's sort algorithm
is unstable; it is modelled by a sort producing the same nonincreasing order
(the order of entries with equal `MergeNum`, which Go leaves unspecified, is
the only freedom). -/
def sortMerges (ms : List MergeInfo) : List MergeInfo :=
  List.insertionSort mergeGE ms

/-- `populateMergeWithInfo` from src/main.go lines 221-268. The GitHub API is
the collaborator `api`, mapping a commit sha to the decoded response of
`commits/<sha>/pulls` or to a transport/decode error. For each entry: on an
API error, log and continue (entry unchanged); otherwise take the first
returned pull whose state is "closed" and overwrite number, URL, titlecased
title, author login and author profile URL; when none is closed, log and
leave the entry unchanged. The Go function always returns a nil error (its
only `return` is `return nil`), so it is modelled as returning the list. -/
def populateMergeWithInfo (M : UnicodeModel) (api : String → Except String (List PullInfo))
    (merges : List MergeInfo) : List MergeInfo :=
  merges.map fun m =>
    match api m.commitHash with
    | .error _ => m
    | .ok pulls =>
      match pulls.find? (fun p => p.state == "closed") with
      | none => m
      | some p =>
        { m with mergeNum := p.number, mergeUrl := p.url, title := titleA M p.title,
                 userName := p.userLogin, userProfileUrl := p.userUrl }

/-- The argument list of the `git log` invocation in `getGitMerges`
(src/main.go line 167): the range is always `<lastTag>..origin/master`. -/
def gitMergesLogArgs (lastTag : String) : List String :=
  ["log", "--merges", "--pretty=format:%H --- %an --- %aE --- %s",
   lastTag ++ "..origin/master"]

/-- `getGitMerges` from src/main.go lines 165-219, given the stdout lines of
the `git log` invocation: parse each line (skipping malformed ones), sort by
descending merge number, then enrich via the API. The error from
`populateMergeWithInfo` is only logged (line 215), and the remaining error
paths (subprocess failure, scanner failure) live in the collaborators, so
the function is total here. -/
def getGitMerges_A (M : UnicodeModel) (api : String → Except String (List PullInfo))
    (logLines : List String) : List MergeInfo :=
  populateMergeWithInfo M api (sortMerges (logLines.filterMap parseMergeLine))

instance {ε α : Type} [DecidableEq ε] [DecidableEq α] : DecidableEq (Except ε α) := fun x y =>
  match x, y with
  | .error a, .error b => if h : a = b then .isTrue (by rw [h]) else .isFalse (by simp [h])
  | .ok a, .ok b => if h : a = b then .isTrue (by rw [h]) else .isFalse (by simp [h])
  | .error _, .ok _ => .isFalse (by simp)
  | .ok _, .error _ => .isFalse (by simp)

/-- The fields of `net/url.URL` that the source reads: `Host`, `Path`, plus
`Scheme` and `Opaque` (named `opaq` here), which drive the parse. -/
structure GoURL where
  scheme : String
  opaq : String
  host : String
  path : String
deriving DecidableEq

/-- Everything before the first occurrence of `c`, and everything after it
(`strings.Cut`); the first component is the whole list when `c` is absent. -/
def cutAt (c : Char) (l : List Char) : List Char × List Char :=
  (l.takeWhile (· ≠ c), (l.dropWhile (· ≠ c)).drop 1)

/-- ASCII lowering, as `strings.ToLower` acts on scheme names. -/
def asciiLower (l : List Char) : List Char :=
  l.map fun c => if 'A' ≤ c ∧ c ≤ 'Z' then Char.ofNat (c.toNat + 32) else c

/-- `net/url`'s `getScheme`: scan from the start; a scheme is a leading
letter followed by letters, digits, `+`, `-` or `.`, terminated by `:`.
Any other character before a `:` means there is no scheme and the whole
input is returned; a `:` in first position is the error
"missing protocol scheme". -/
def getSchemeAux (orig : List Char) : Nat → List Char → Except String (List Char × List Char)
  | _, [] => .ok ([], orig)
  | i, c :: rest =>
    if c.isAlpha then getSchemeAux orig (i + 1) rest
    else if c.isDigit ∨ c = '+' ∨ c = '-' ∨ c = '.' then
      if i = 0 then .ok ([], orig) else getSchemeAux orig (i + 1) rest
    else if c = ':' then
      if i = 0 then .error "missing protocol scheme"
      else .ok (orig.take i, rest)
    else .ok ([], orig)

def getScheme (raw : List Char) : Except String (List Char × List Char) :=
  getSchemeAux raw 0 raw

/-- `net/url`'s `parseHost` restricted to the host shapes the claims touch
(no `[ipv6]` brackets, no percent-escapes): when the host contains a `:`,
the part after the last `:` must be a valid optional port (only digits),
otherwise the parse fails; the host string, port included, is kept. -/
def parseHost (host : List Char) : Except String (List Char) :=
  if ':' ∈ host then
    let port := (host.reverse.takeWhile (· ≠ ':')).reverse
    if port.all Char.isDigit then .ok host
    else .error "invalid port after host"
  else .ok host

/-- `net/url`'s `parseAuthority` on the shapes the claims touch: userinfo is
whatever precedes the last `@`; the host is parsed from the remainder. -/
def parseAuthority (authority : List Char) : Except String (List Char) :=
  if '@' ∈ authority then
    parseHost ((authority.reverse.takeWhile (· ≠ '@')).reverse)
  else
    parseHost authority

/-- `url.Parse(rawURL)` (so `viaRequest = false`), modelling the code path of
`net/url.parse` on inputs free of control bytes, percent-escapes and
fragments — the shapes a git remote URL takes. Steps, in source order: cut
the fragment at `#`; extract and lower the scheme; cut the query at `?`;
when the rest does not start with `/`: a non-empty scheme makes it opaque,
and with no scheme a `:` inside the first path segment is the error "first
path segment in URL cannot contain colon"; when the rest starts with `//`
(and is not a scheme-less `///`), the authority runs to the next `/` and is
split into userinfo and host; the remainder is the path. -/
def urlParse (rawURL : String) : Except String GoURL :=
  if rawURL.data.any (fun c => c.toNat < 0x20 ∨ c.toNat = 0x7f) then
    .error "net/url: invalid control character in URL"
  else
    let noFrag := (cutAt '#' rawURL.data).1
    match getScheme noFrag with
    | .error e => .error e
    | .ok (schemeChars, afterScheme) =>
      let scheme := asciiLower schemeChars
      let rest := (cutAt '?' afterScheme).1
      if ¬ ['/'].isPrefixOf rest ∧ scheme ≠ [] then
        .ok { scheme := String.mk scheme, opaq := String.mk rest, host := "", path := "" }
      else if ¬ ['/'].isPrefixOf rest ∧ ':' ∈ (cutAt '/' rest).1 then
        .error "first path segment in URL cannot contain colon"
      else if (scheme ≠ [] ∨ ¬ ['/', '/', '/'].isPrefixOf rest) ∧ ['/', '/'].isPrefixOf rest then
        let afterSlashes := rest.drop 2
        let authority := afterSlashes.takeWhile (· ≠ '/')
        let path := afterSlashes.dropWhile (· ≠ '/')
        match parseAuthority authority with
        | .error e => .error e
        | .ok host =>
          .ok { scheme := String.mk scheme, opaq := "", host := String.mk host,
                path := String.mk path }
      else
        .ok { scheme := String.mk scheme, opaq := "", host := "", path := String.mk rest }

/-- `strings.TrimSuffix`: remove one trailing copy of `suf` when present. -/
def trimSuffix (s suf : String) : String :=
  if suf.data.isSuffixOf s.data then String.mk (s.data.take (s.data.length - suf.data.length))
  else s

/-- `regexp.MatchString("", s)` as called on src/main.go line 124 and
src/unnamed/part_000 line 143: the empty pattern matches the empty prefix of
every string, so the call always reports a match. -/
def matchesEmptyPattern (_ : String) : Bool := true

/-- `setupRepoAPIURL` from src/main.go lines 108-133, given the trimmed
remote-origin URL read from `git config --get remote.origin.url`: parse it
with `url.Parse` (no normalization of any kind in this variant), fail unless
the host is exactly "github.com", check the `.git`-stripped path against the
empty regexp pattern (failing with "wrong repo name" when it does not
match), and otherwise produce the API base URL that the code stores in the
global `apiUrl`. An `.error` result means the global is never assigned. -/
def setupRepoAPIURL_A (origin : String) : Except String String :=
  match urlParse origin with
  | .error e => .error e
  | .ok u =>
    if u.host ≠ "github.com" then .error "only github.com repos are supported"
    else
      let orgWithProject := trimSuffix u.path ".git"
      if matchesEmptyPattern orgWithProject then
        .ok ("https://api.github.com/repos" ++ orgWithProject ++ "/")
      else .error "wrong repo name"

/-- `gitUrlRegex = ^git@([^:]+):([^/]+)/([^/]+).git$` from
src/unnamed/part_000 line 41, with its three captures. The literal input
must be `git@`, a non-empty colon-free group, `:`, a non-empty slash-free
group, `/`, then a tail whose last four characters are an arbitrary
character followed by `git` (the `.` of `.git` is unescaped) and whose
remaining front — the third capture — is non-empty and slash-free. -/
def gitUrlMatch (origin : String) : Option (String × String × String) :=
  if "git@".data.isPrefixOf origin.data then
    let t := origin.data.drop 4
    let g1 := t.takeWhile (· ≠ ':')
    if g1 = [] ∨ ¬ ':' ∈ t then none
    else
      let t2 := (t.dropWhile (· ≠ ':')).drop 1
      let g2 := t2.takeWhile (· ≠ '/')
      if g2 = [] ∨ ¬ '/' ∈ t2 then none
      else
        let u := (t2.dropWhile (· ≠ '/')).drop 1
        if 5 ≤ u.length ∧ "git".data.isSuffixOf u ∧ ¬ '/' ∈ u.take (u.length - 4) then
          some (String.mk g1, String.mk g2, String.mk (u.take (u.length - 4)))
        else none
  else none

/-- The normalization step at src/unnamed/part_000 lines 129-131: an
SSH-style remote matching `gitUrlRegex` is rewritten to
`git://` followed by its three captures joined with `/`. -/
def normalizeOrigin (origin : String) : String :=
  match gitUrlMatch origin with
  | some (g1, g2, g3) => "git://" ++ g1 ++ "/" ++ g2 ++ "/" ++ g3
  | none => origin

/-- `setupRepoAPIURL` from src/unnamed/part_000 lines 123-153: identical to
the src/main.go variant except that an SSH-style remote matching
`gitUrlRegex` is first rewritten to `git://<host>/<org>/<repo>`, and a
`url.Parse` failure is wrapped as "url parse: …". -/
def setupRepoAPIURL_B (origin : String) : Except String String :=
  match urlParse (normalizeOrigin origin) with
  | .error e => .error ("url parse: " ++ e)
  | .ok u =>
    if u.host ≠ "github.com" then .error "only github.com repos are supported"
    else
      let orgWithProject := trimSuffix u.path ".git"
      if matchesEmptyPattern orgWithProject then
        .ok ("https://api.github.com/repos" ++ orgWithProject ++ "/")
      else .error "wrong repo name"

example : setupRepoAPIURL_B "git@github.com:org/repo.git" =
    .ok "https://api.github.com/repos/org/repo/" := by decide
example : setupRepoAPIURL_B "https://github.com/org/repo.git" =
    .ok "https://api.github.com/repos/org/repo/" := by decide
example : setupRepoAPIURL_A "https://github.com/org/repo.git" =
    .ok "https://api.github.com/repos/org/repo/" := by decide
example : setupRepoAPIURL_A "git@github.com:org/repo.git" =
    .error "first path segment in URL cannot contain colon" := by decide

/-- A parsed semantic version (collaborator `Masterminds/semver`). -/
structure SemVer where
  major : Nat
  minor : Nat
  patch : Nat
deriving DecidableEq

/-- A non-empty all-digit token parsed as a decimal number. -/
def parseNatStrict (l : List Char) : Option Nat :=
  if l ≠ [] ∧ l.all Char.isDigit then some (digitsToNat l) else none

/-- Model of the collaborator `semver.NewVersion`, restricted to plain
numeric versions: an optional leading `v`, then one to three dot-separated
decimal components (absent minor/patch default to 0). Tags with prerelease
or build-metadata suffixes are outside the inputs the claims touch; every
other non-conforming tag fails to parse, as in the library. -/
def semverParse (s : String) : Option SemVer :=
  let t := if s.data.head? = some 'v' then s.data.tail else s.data
  match (t.splitOn '.').map parseNatStrict with
  | [some a] => some ⟨a, 0, 0⟩
  | [some a, some b] => some ⟨a, b, 0⟩
  | [some a, some b, some c] => some ⟨a, b, c⟩
  | _ => none

/-- The collaborator `Version.GreaterThan`: lexicographic comparison of
major, minor, patch (no prerelease on the versions modelled here). -/
def semverGT (a b : SemVer) : Bool :=
  if a.major ≠ b.major then decide (b.major < a.major)
  else if a.minor ≠ b.minor then decide (b.minor < a.minor)
  else decide (b.patch < a.patch)

/-- The scan loop of `getLastGitTag` (src/main.go lines 147-157): walk the
tag lines keeping the greatest version seen so far together with its
original spelling; a line that fails to parse is logged and skipped. -/
def lastTagLoop : List String → Option (SemVer × String) → Option (SemVer × String)
  | [], acc => acc
  | t :: ts, acc =>
    match semverParse t with
    | none => lastTagLoop ts acc
    | some v =>
      match acc with
      | none => lastTagLoop ts (some (v, t))
      | some (mv, _) => if semverGT v mv then lastTagLoop ts (some (v, t)) else lastTagLoop ts acc

/-- `getLastGitTag` from src/main.go lines 135-163, given the stdout lines of
`git tag`: the original spelling of the greatest parseable tag, or the
zero-value empty string when no line parses. The only error paths of the Go
function (subprocess failure, scanner failure) live in the collaborators; on
a delivered tag list it cannot fail. -/
def getLastGitTag (tagLines : List String) : String :=
  match lastTagLoop tagLines none with
  | none => ""
  | some (_, s) => s

example : getLastGitTag ["not-a-version", "1.2.0"] = "1.2.0" := by decide

/-- One flag registration: name and default value, as passed to the `flag`
package. -/
structure FlagSpec where
  name : String
  defaultValue : String
deriving DecidableEq

/-- The flags registered by `init()` in src/main.go lines 41-47:
`github-token`, `help`, `h`. No `main-branch` flag exists in this variant. -/
def flags_A : List FlagSpec :=
  [⟨"github-token", ""⟩, ⟨"help", "false"⟩, ⟨"h", "false"⟩]

/-- The flags registered by `init()` in src/unnamed/part_000 lines 43-50:
`github-token`, `main-branch` (default "main"), `help`, `h`. -/
def flags_B : List FlagSpec :=
  [⟨"github-token", ""⟩, ⟨"main-branch", "main"⟩, ⟨"help", "false"⟩, ⟨"h", "false"⟩]

/-- One element of the response slice decoded in the closed-PR-list
`getGitMerges` (src/unnamed/part_000 lines 186-198): the `PullInfo` fields
plus `merge_commit_sha` and `merged_at`. -/
structure PullB where
  url : String
  number : Int
  state : String
  title : String
  userLogin : String
  userUrl : String
  mergeCommitSHA : String
  mergedAt : String
deriving DecidableEq

/-- `MergeInfo` from src/unnamed/part_000 lines 52-62 (no email field). -/
structure MergeInfoB where
  commitHash : String
  userName : String
  userProfileUrl : String
  mergeNum : Int
  mergeUrl : String
  title : String
deriving DecidableEq

/-- The `MergeInfo` built from one kept pull in src/unnamed/part_000 lines
211-218: fields copied from the pull, title trimmed and titlecased. -/
def pullToMergeInfo (M : UnicodeModel) (pi : PullB) : MergeInfoB :=
  { commitHash := pi.mergeCommitSHA, userName := pi.userLogin,
    userProfileUrl := pi.userUrl, mergeNum := pi.number, mergeUrl := pi.url,
    title := titleB M pi.title }

/-- `getGitMerges` from src/unnamed/part_000 lines 185-222, given the decoded
response of `pulls?state=closed&sort=updated&direction=desc&per_page=100`:
every pull whose `merged_at` is the empty string is skipped by the
`continue`; each remaining pull contributes one `MergeInfo`, in response
order (no sort in this variant). -/
def getGitMerges_B (M : UnicodeModel) (pulls : List PullB) : List MergeInfoB :=
  pulls.filterMap fun pi =>
    if pi.mergedAt = "" then none else some (pullToMergeInfo M pi)

/-- One `{{range .Merges}}` line of the template at src/main.go lines 285-290
and src/unnamed/part_000 lines 241-246, for the tag-delta `MergeInfo`. -/
def renderEntry_A (m : MergeInfo) : String :=
  "* " ++ m.title ++ ". [#" ++ toString m.mergeNum ++ "](" ++ m.mergeUrl ++
  ") ([" ++ m.userName ++ "](" ++ m.userProfileUrl ++ "))\n"

/-- The same template line for the closed-PR-list `MergeInfo`. -/
def renderEntry_B (m : MergeInfoB) : String :=
  "* " ++ m.title ++ ". [#" ++ toString m.mergeNum ++ "](" ++ m.mergeUrl ++
  ") ([" ++ m.userName ++ "](" ++ m.userProfileUrl ++ "))\n"

/-- `generateChangelogSection` (identical template in both variants): header
with the `NEW_TAG_HERE` placeholder and the render-time date, then one line
per entry. The date, `time.Now()` formatted, is a parameter. -/
def generateChangelogSection_A (date : String) (ms : List MergeInfo) : String :=
  "\n### Tag NEW_TAG_HERE (" ++ date ++ ")\n" ++ String.join (ms.map renderEntry_A)

def generateChangelogSection_B (date : String) (ms : List MergeInfoB) : String :=
  "\n### Tag NEW_TAG_HERE (" ++ date ++ ")\n" ++ String.join (ms.map renderEntry_B)

/-- `generate` from src/main.go lines 316-338. The git subprocess is the
collaborator `gitLog`, mapping an argument list to stdout lines (a
successfully-exiting subprocess; a failing one is a fatal error in the
collaborator, outside this model). The origin resolver may fail (wrapped
"can't get repo url"); `getLastGitTag` and `getGitMerges` cannot then fail
on delivered output, so the run proceeds to the rendered section. -/
def generate_A (M : UnicodeModel) (api : String → Except String (List PullInfo))
    (gitLog : List String → List String) (origin date : String) : Except String String :=
  match setupRepoAPIURL_A origin with
  | .error e => .error ("can't get repo url: " ++ e)
  | .ok _ =>
    let lastTag := getLastGitTag (gitLog ["tag"])
    let merges := getGitMerges_A M api (gitLog (gitMergesLogArgs lastTag))
    .ok (generateChangelogSection_A date merges)

/-- Three stdout lines of `git log --merges` whose merge commits carry the
pull-request numbers 3, 10 and 1, in that order. -/
def c3LogLines : List String :=
  ["1111111111 --- alice --- alice@example.com --- Merge pull request #3 from org/feature-a",
   "2222222222 --- bob --- bob@example.com --- Merge pull request #10 from org/feature-b",
   "3333333333 --- carol --- carol@example.com --- Merge pull request #1 from org/feature-c"]

/-- An API collaborator whose every call fails (network unreachable), under
which PR enrichment leaves every entry unchanged. -/
def failingApi : String → Except String (List PullInfo) := fun _ => .error "network unreachable"

/-- C1: the claim says both the SSH form `git@github.com:org/repo.git` and
the HTTPS form resolve in both variants of `setupRepoAPIURL`. False for the
src/main.go variant: it performs no SSH normalization, and `url.Parse`
rejects the SSH form ("first path segment in URL cannot contain colon"),
so the resolver fails instead of producing the API base URL. -/
theorem c1_counterexample :
    setupRepoAPIURL_A "git@github.com:org/repo.git" =
      Except.error "first path segment in URL cannot contain colon" := by
  decide

/-- C1 (amended): in the part_000 variant both the SSH form and the HTTPS
form of the remote `org/repo` resolve to the API base
`https://api.github.com/repos/org/repo/`, the SSH form being normalized into
a parseable form first; in the src/main.go variant only the HTTPS form
resolves, the SSH form being a parse error since that variant has no
normalization. -/
theorem c1_theorem :
    setupRepoAPIURL_B "git@github.com:org/repo.git" =
      Except.ok "https://api.github.com/repos/org/repo/" ∧
    setupRepoAPIURL_B "https://github.com/org/repo.git" =
      Except.ok "https://api.github.com/repos/org/repo/" ∧
    setupRepoAPIURL_A "https://github.com/org/repo.git" =
      Except.ok "https://api.github.com/repos/org/repo/" ∧
    setupRepoAPIURL_A "git@github.com:org/repo.git" =
      Except.error "first path segment in URL cannot contain colon" := by
  refine ⟨by decide, by decide, by decide, by decide⟩

/-- C2: the claim says the tag-delta strategy accepts `--main-branch`
(default `main`) and logs merges over `<tag>..<main-branch>`. False: the
tag-delta variant (src/main.go) registers no `main-branch` flag, and its
`git log` range for tag `v1.0.0` is the hard-coded `v1.0.0..origin/master`,
not `v1.0.0..main`. -/
theorem c2_counterexample :
    (gitMergesLogArgs "v1.0.0").getLast? = some "v1.0.0..origin/master" ∧
    "v1.0.0..origin/master" ≠ "v1.0.0..main" ∧
    flags_A.find? (fun f => f.name == "main-branch") = none := by
  refine ⟨by decide, by decide, by decide⟩

/-- C2 (amended): the `--main-branch` flag (default `main`) is registered
only in the part_000 closed-PR-list variant, where nothing reads it; the
tag-delta `getGitMerges` of src/main.go always passes the range
`<tag>..origin/master` to `git log`, ignoring any branch configuration. -/
theorem c2_theorem :
    (∀ t : String, gitMergesLogArgs t =
      ["log", "--merges", "--pretty=format:%H --- %an --- %aE --- %s",
       t ++ "..origin/master"]) ∧
    flags_A.find? (fun f => f.name == "main-branch") = none ∧
    flags_B.find? (fun f => f.name == "main-branch") = some ⟨"main-branch", "main"⟩ := by
  refine ⟨fun t => rfl, by decide, by decide⟩

/-- C3: in the tag-delta strategy the merge list is sorted into nonincreasing
pull-request number before rendering — the sorted list is ordered under
`mergeGE` and is a permutation of the input — and on an input whose merge
commits carry the numbers [3, 10, 1] the entries come out in the order
[10, 3, 1]. -/
theorem c3_theorem :
    (∀ ms : List MergeInfo,
        List.Sorted mergeGE (sortMerges ms) ∧ (sortMerges ms).Perm ms) ∧
    (getGitMerges_A asciiUnicode failingApi c3LogLines).map (fun m => m.mergeNum) =
      [10, 3, 1] := by
  refine ⟨fun ms => ⟨List.sorted_insertionSort mergeGE ms, List.perm_insertionSort mergeGE ms⟩, ?_⟩
  decide

/-- C7: the title-casing functions map the empty string to itself; on a
non-empty input whose first character is title-case the input is returned
unchanged, otherwise the first character is replaced by its title-case form
with the remainder verbatim; the part_000 variant first trims surrounding
whitespace; and on the ASCII tables "add feature" maps to "Add feature"
while "Already Title" is unchanged. -/
theorem c7_theorem :
    (∀ M : UnicodeModel, titleA M "" = "" ∧ titleB M "" = "") ∧
    (∀ (M : UnicodeModel) (s : String) (r : Char) (rest : List Char),
        s.data = r :: rest → M.isTitle r = true → titleA M s = s) ∧
    (∀ (M : UnicodeModel) (s : String) (r : Char) (rest : List Char),
        s.data = r :: rest → M.isTitle r = false →
          titleA M s = String.mk (M.toTitle r :: rest)) ∧
    (∀ (M : UnicodeModel) (s : String), titleB M s = titleA M (trimSpace M s)) ∧
    titleA asciiUnicode "add feature" = "Add feature" ∧
    titleA asciiUnicode "Already Title" = "Already Title" ∧
    titleB asciiUnicode " add feature " = "Add feature" ∧
    titleB asciiUnicode "Already Title" = "Already Title" := by
  refine ⟨fun M => ⟨rfl, rfl⟩, ?_, ?_, ?_, by decide, by decide, by decide, by decide⟩
  · intro M s r rest h ht
    simp [titleA, h, ht]
  · intro M s r rest h ht
    simp [titleA, h, ht]
  · intro M s
    rfl

/-- Witness for C7: the already-title-case branch applied under a table in
which every character is title-case, and the recasing branch applied under
the ASCII tables. -/
theorem c7_witness :
    titleA allTitleUnicode "ab" = "ab" ∧
    titleA asciiUnicode "zq!" = String.mk (asciiUnicode.toTitle 'z' :: ['q', '!']) := by
  exact ⟨c7_theorem.2.1 allTitleUnicode "ab" 'a' ['b'] rfl rfl,
         c7_theorem.2.2.1 asciiUnicode "zq!" 'z' ['q', '!'] rfl rfl⟩

/-- C9: in the closed-PR-list strategy, the `MergeInfo` list consists of
exactly the pulls whose merged-at timestamp is non-empty, in response order;
an entry appears in it iff it comes from such a pull; and the rendered
section therefore contains one template line per such pull only. -/
theorem c9_theorem (M : UnicodeModel) (pulls : List PullB) (date : String) :
    getGitMerges_B M pulls =
      (pulls.filter (fun p => !(p.mergedAt == ""))).map (pullToMergeInfo M) ∧
    (∀ m, m ∈ getGitMerges_B M pulls ↔
      ∃ p, p ∈ pulls ∧ p.mergedAt ≠ "" ∧ m = pullToMergeInfo M p) ∧
    generateChangelogSection_B date (getGitMerges_B M pulls) =
      "\n### Tag NEW_TAG_HERE (" ++ date ++ ")\n" ++
        String.join
          (((pulls.filter (fun p => !(p.mergedAt == ""))).map (pullToMergeInfo M)).map
            renderEntry_B) := by
  have h1 : getGitMerges_B M pulls =
      (pulls.filter (fun p => !(p.mergedAt == ""))).map (pullToMergeInfo M) := by
    induction pulls with
    | nil => rfl
    | cons p ps ih =>
      by_cases h : p.mergedAt = "" <;>
        simp [getGitMerges_B, List.filterMap_cons, List.filter_cons, h] <;>
        simpa [getGitMerges_B] using ih
  refine ⟨h1, ?_, by rw [h1]; rfl⟩
  intro m
  rw [h1]
  simp only [List.mem_map, List.mem_filter, Bool.not_eq_true', beq_eq_false_iff_ne]
  constructor
  · rintro ⟨p, ⟨hp, hq⟩, he⟩
    exact ⟨p, hp, hq, he.symm⟩
  · rintro ⟨p, hp, hq, he⟩
    exact ⟨p, ⟨hp, hq⟩, he.symm⟩

/-- Witness for C9: of two closed pulls, one with an empty merged-at
timestamp and one merged, only the merged one produces an entry. -/
theorem c9_witness :
    getGitMerges_B idUnicode
      [⟨"https://u1", 1, "closed", "t1", "alice", "https://a", "sha1", ""⟩,
       ⟨"https://u2", 2, "closed", "t2", "bob", "https://b", "sha2", "2020-01-01T00:00:00Z"⟩] =
      [pullToMergeInfo idUnicode
        ⟨"https://u2", 2, "closed", "t2", "bob", "https://b", "sha2", "2020-01-01T00:00:00Z"⟩] := by
  rw [(c9_theorem idUnicode
      [⟨"https://u1", 1, "closed", "t1", "alice", "https://a", "sha1", ""⟩,
       ⟨"https://u2", 2, "closed", "t2", "bob", "https://b", "sha2", "2020-01-01T00:00:00Z"⟩]
      "2026-10-11").1]
  decide

/-- The tag-scan loop leaves its accumulator untouched when no line parses
as a semantic version. -/
lemma lastTagLoop_const (ts : List String) :
    ∀ acc, (∀ t ∈ ts, semverParse t = none) → lastTagLoop ts acc = acc := by
  induction ts with
  | nil => intro acc _; rfl
  | cons t ts ih =>
    intro acc h
    have ht : semverParse t = none := h t (by simp)
    rw [lastTagLoop, ht]
    exact ih acc fun x hx => h x (by simp [hx])

/-- C10: when no tag line parses as a semantic version (the empty tag list
included), `getLastGitTag` returns the empty string with no error, the
`git log` range becomes `..origin/master` — the entire history of
origin/master — and `generate` proceeds to a rendered section instead of
failing. -/
theorem c10_theorem (gitLog : List String → List String)
    (h : ∀ t ∈ gitLog ["tag"], semverParse t = none) :
    getLastGitTag (gitLog ["tag"]) = "" ∧
    gitMergesLogArgs (getLastGitTag (gitLog ["tag"])) =
      ["log", "--merges", "--pretty=format:%H --- %an --- %aE --- %s",
       "..origin/master"] ∧
    (∀ (M : UnicodeModel) (api : String → Except String (List PullInfo))
        (origin date apiBase : String),
      setupRepoAPIURL_A origin = Except.ok apiBase →
      generate_A M api gitLog origin date =
        Except.ok (generateChangelogSection_A date
          (getGitMerges_A M api (gitLog (gitMergesLogArgs (getLastGitTag (gitLog ["tag"]))))))) := by
  have h0 : getLastGitTag (gitLog ["tag"]) = "" := by
    rw [getLastGitTag, lastTagLoop_const _ none h]
  refine ⟨h0, by rw [h0]; rfl, ?_⟩
  intro M api origin date apiBase hsetup
  rw [generate_A, hsetup]

/-- Witness for C10: the empty tag list resolves to the empty string, so
with an HTTPS origin the whole run still renders a (merge-free) section. -/
theorem c10_witness :
    getLastGitTag [] = "" ∧
    generate_A idUnicode failingApi (fun _ => [])
        "https://github.com/org/repo.git" "2026-10-11" =
      Except.ok (generateChangelogSection_A "2026-10-11" []) := by
  have h := c10_theorem (fun _ => []) (by intro t ht; cases ht)
  exact ⟨h.1, h.2.2 idUnicode failingApi "https://github.com/org/repo.git" "2026-10-11"
    "https://api.github.com/repos/org/repo/" (by decide)⟩

/-- C4: `populateMergeWithInfo` keeps the list length; an entry whose API
call fails, or for which no returned pull is closed, is left unchanged (the
failure is only logged, never fatal); and an entry for which the first
closed pull exists takes its number, URL, titlecased title, author login and
author profile URL from that pull. -/
theorem c4_theorem (M : UnicodeModel) (api : String → Except String (List PullInfo))
    (ms : List MergeInfo) (i : Nat) (m : MergeInfo) (hm : ms[i]? = some m) :
    (populateMergeWithInfo M api ms).length = ms.length ∧
    (∀ e, api m.commitHash = Except.error e →
      (populateMergeWithInfo M api ms)[i]? = some m) ∧
    (∀ pulls, api m.commitHash = Except.ok pulls →
      pulls.find? (fun p => p.state == "closed") = none →
      (populateMergeWithInfo M api ms)[i]? = some m) ∧
    (∀ pulls p, api m.commitHash = Except.ok pulls →
      pulls.find? (fun p => p.state == "closed") = some p →
      p.state = "closed" ∧
      (populateMergeWithInfo M api ms)[i]? = some
        { m with mergeNum := p.number, mergeUrl := p.url, title := titleA M p.title,
                 userName := p.userLogin, userProfileUrl := p.userUrl }) := by
  have hmap : (populateMergeWithInfo M api ms)[i]? =
      some (match api m.commitHash with
        | .error _ => m
        | .ok pulls =>
          match pulls.find? (fun p => p.state == "closed") with
          | none => m
          | some p =>
            { m with mergeNum := p.number, mergeUrl := p.url, title := titleA M p.title,
                     userName := p.userLogin, userProfileUrl := p.userUrl }) := by
    rw [populateMergeWithInfo, List.getElem?_map, hm, Option.map_some']
  refine ⟨by rw [populateMergeWithInfo, List.length_map], ?_, ?_, ?_⟩
  · intro e he
    rw [hmap, he]
  · intro pulls hok hnone
    rw [hmap, hok]
    simp [hnone]
  · intro pulls p hok hsome
    have hstate : p.state = "closed" := by
      have := List.find?_some hsome
      simpa using this
    refine ⟨hstate, ?_⟩
    rw [hmap, hok]
    simp [hsome]

/-- Witness for C4: a one-entry list under a failing API stays unchanged,
and under an API returning one closed pull it takes that pull's fields. -/
theorem c4_witness :
    (populateMergeWithInfo idUnicode failingApi
      [⟨"sha0", "bob", "", "bob@example.com", 3, "", ""⟩])[0]? =
      some ⟨"sha0", "bob", "", "bob@example.com", 3, "", ""⟩ ∧
    (populateMergeWithInfo idUnicode
      (fun _ => Except.ok [⟨"https://pr7", 7, "closed", "fix bug", "alice", "https://alice"⟩])
      [⟨"sha0", "bob", "", "bob@example.com", 3, "", ""⟩])[0]? =
      some ⟨"sha0", "alice", "https://alice", "bob@example.com", 7, "https://pr7",
            titleA idUnicode "fix bug"⟩ := by
  constructor
  · exact (c4_theorem idUnicode failingApi
      [⟨"sha0", "bob", "", "bob@example.com", 3, "", ""⟩] 0
      ⟨"sha0", "bob", "", "bob@example.com", 3, "", ""⟩ rfl).2.1 "network unreachable" rfl
  · exact ((c4_theorem idUnicode
      (fun _ => Except.ok [⟨"https://pr7", 7, "closed", "fix bug", "alice", "https://alice"⟩])
      [⟨"sha0", "bob", "", "bob@example.com", 3, "", ""⟩] 0
      ⟨"sha0", "bob", "", "bob@example.com", 3, "", ""⟩ rfl).2.2.2
      [⟨"https://pr7", 7, "closed", "fix bug", "alice", "https://alice"⟩]
      ⟨"https://pr7", 7, "closed", "fix bug", "alice", "https://alice"⟩ rfl (by decide)).2

/-- C5: the claim says the resolver errors whenever the repository path does
not parse as an org/repo path. False: the path check is
`regexp.MatchString("", …)`, whose empty pattern matches every string, so a
github.com remote with an empty path or a garbage path still succeeds and
the API URL is set. -/
theorem c5_counterexample :
    setupRepoAPIURL_A "https://github.com" = Except.ok "https://api.github.com/repos/" ∧
    setupRepoAPIURL_A "https://github.com/!!!" =
      Except.ok "https://api.github.com/repos/!!!/" ∧
    setupRepoAPIURL_B "https://github.com/!!!" =
      Except.ok "https://api.github.com/repos/!!!/" := by
  refine ⟨by decide, by decide, by decide⟩

/-- C5 (amended): whenever the parsed remote's host differs from github.com,
both resolver variants return the "only github.com repos are supported"
error and the API base URL is never produced; but once the host matches, the
empty-pattern path check accepts every path, so "wrong repo name" is never
returned and the resolver always succeeds with
`https://api.github.com/repos<path-less-.git>/`. -/
theorem c5_theorem (origin : String) (u : GoURL) (h : urlParse origin = Except.ok u) :
    (u.host ≠ "github.com" →
      setupRepoAPIURL_A origin = Except.error "only github.com repos are supported") ∧
    (u.host = "github.com" →
      setupRepoAPIURL_A origin =
        Except.ok ("https://api.github.com/repos" ++ trimSuffix u.path ".git" ++ "/")) ∧
    (∀ v : GoURL, urlParse (normalizeOrigin origin) = Except.ok v →
      v.host ≠ "github.com" →
      setupRepoAPIURL_B origin = Except.error "only github.com repos are supported") ∧
    (∀ v : GoURL, urlParse (normalizeOrigin origin) = Except.ok v →
      v.host = "github.com" →
      setupRepoAPIURL_B origin =
        Except.ok ("https://api.github.com/repos" ++ trimSuffix v.path ".git" ++ "/")) := by
  refine ⟨?_, ?_, ?_, ?_⟩
  · intro hh
    unfold setupRepoAPIURL_A
    rw [h]
    simp [hh]
  · intro hh
    unfold setupRepoAPIURL_A
    rw [h]
    simp [hh, matchesEmptyPattern]
  · intro v hv hh
    unfold setupRepoAPIURL_B
    rw [hv]
    simp [hh]
  · intro v hv hh
    unfold setupRepoAPIURL_B
    rw [hv]
    simp [hh, matchesEmptyPattern]

/-- Witness for C5: a gitlab.com remote is rejected by both variants with
the host error. -/
theorem c5_witness :
    setupRepoAPIURL_A "https://gitlab.com/x/y" =
      Except.error "only github.com repos are supported" ∧
    setupRepoAPIURL_B "https://gitlab.com/x/y" =
      Except.error "only github.com repos are supported" := by
  have h := c5_theorem "https://gitlab.com/x/y" ⟨"https", "", "gitlab.com", "/x/y"⟩ (by decide)
  exact ⟨h.1 (by decide), h.2.2.1 ⟨"https", "", "gitlab.com", "/x/y"⟩ (by decide) (by decide)⟩

/-- Dropping a satisfied-prefix twice is the same as once. -/
lemma dropWhile_dropWhile (p : Char → Bool) (l : List Char) :
    List.dropWhile p (List.dropWhile p l) = List.dropWhile p l := by
  induction l with
  | nil => rfl
  | cons x xs ih => by_cases h : p x <;> simp [List.dropWhile_cons, h, ih]

/-- `dropWhile` returns a suffix: something was split off the front. -/
lemma exists_append_dropWhile (p : Char → Bool) (l : List Char) :
    ∃ t, t ++ List.dropWhile p l = l := by
  induction l with
  | nil => exact ⟨[], rfl⟩
  | cons x xs ih =>
    by_cases h : p x
    · obtain ⟨t, ht⟩ := ih
      exact ⟨x :: t, by simp [List.dropWhile_cons, h, ht]⟩
    · exact ⟨[], by simp [List.dropWhile_cons, h]⟩

/-- A cons fixed by `dropWhile` has a head not satisfying the predicate. -/
lemma head_not_of_dropWhile_cons {p : Char → Bool} {x : Char} {xs : List Char}
    (h : List.dropWhile p (x :: xs) = x :: xs) : p x = false := by
  by_contra hx
  have hx' : p x = true := by simpa using hx
  rw [List.dropWhile_cons, if_pos hx'] at h
  obtain ⟨t, ht⟩ := exists_append_dropWhile p xs
  rw [h] at ht
  have hlen := congrArg List.length ht
  simp [List.length_append] at hlen
  omega

/-- A cons whose head fails the predicate is fixed by `dropWhile`. -/
lemma dropWhile_of_head_false {p : Char → Bool} {x : Char} {xs : List Char}
    (h : p x = false) : List.dropWhile p (x :: xs) = x :: xs := by
  simp [List.dropWhile_cons, h]

/-- Trimming both ends is idempotent. -/
lemma trimList_fix (p : Char → Bool) (l : List Char) :
    trimList p (trimList p l) = trimList p l := by
  have key : ∀ m : List Char, List.dropWhile p m = m →
      trimList p ((List.dropWhile p m.reverse).reverse) =
        (List.dropWhile p m.reverse).reverse := by
    intro m hm
    have h1 : List.dropWhile p (List.dropWhile p m.reverse).reverse =
        (List.dropWhile p m.reverse).reverse := by
      cases hdr : (List.dropWhile p m.reverse).reverse with
      | nil => rfl
      | cons x xs =>
        obtain ⟨t, ht⟩ := exists_append_dropWhile p m.reverse
        have hm2 : m = (List.dropWhile p m.reverse).reverse ++ t.reverse := by
          have h2 := congrArg List.reverse ht
          simpa [List.reverse_append] using h2.symm
        rw [hdr] at hm2
        have hx : p x = false := by
          apply @head_not_of_dropWhile_cons p x (xs ++ t.reverse)
          have h3 := hm
          rw [hm2] at h3
          simpa using h3
        exact dropWhile_of_head_false hx
    unfold trimList
    rw [h1, List.reverse_reverse, dropWhile_dropWhile]
  exact key (List.dropWhile p l) (dropWhile_dropWhile p l)

/-- A non-empty list fixed by trimming is fixed by each one-sided trim. -/
lemma trimList_fix_parts {p : Char → Bool} {r : Char} {rest : List Char}
    (hfix : trimList p (r :: rest) = r :: rest) :
    List.dropWhile p (r :: rest) = r :: rest ∧
    List.dropWhile p (r :: rest).reverse = (r :: rest).reverse := by
  obtain ⟨t1, ht1⟩ := exists_append_dropWhile p (r :: rest)
  obtain ⟨t2, ht2⟩ := exists_append_dropWhile p (List.dropWhile p (r :: rest)).reverse
  have l1 := congrArg List.length ht1
  have l2 := congrArg List.length ht2
  have l3 := congrArg List.length hfix
  simp only [trimList, List.length_append, List.length_reverse, List.length_cons] at l1 l2 l3
  have ht1' : t1 = [] := List.eq_nil_of_length_eq_zero (by omega)
  rw [ht1', List.nil_append] at ht1
  have ht2' : t2 = [] := List.eq_nil_of_length_eq_zero (by omega)
  rw [ht2', List.nil_append, ht1] at ht2
  exact ⟨ht1, ht2⟩

/-- Replacing the head of a trim-fixed list by another character failing the
predicate keeps it trim-fixed. -/
lemma trimList_replace_head {p : Char → Bool} {r c : Char} {rest : List Char}
    (hfix : trimList p (r :: rest) = r :: rest) (hc : p c = false) :
    trimList p (c :: rest) = c :: rest := by
  obtain ⟨_, htail⟩ := trimList_fix_parts hfix
  have h1 : List.dropWhile p (c :: rest) = c :: rest := dropWhile_of_head_false hc
  have h2 : List.dropWhile p (c :: rest).reverse = (c :: rest).reverse := by
    cases hrev : rest.reverse with
    | nil =>
      have hnil : rest = [] := by simpa using congrArg List.reverse hrev
      subst hnil
      simpa using @dropWhile_of_head_false p c [] hc
    | cons x xs =>
      have hx : p x = false := by
        apply @head_not_of_dropWhile_cons p x (xs ++ [r])
        have h3 := htail
        rw [List.reverse_cons, hrev] at h3
        simpa using h3
      have h4 : (c :: rest).reverse = x :: (xs ++ [c]) := by
        rw [List.reverse_cons, hrev]
        simp
      rw [h4]
      exact dropWhile_of_head_false hx
  unfold trimList
  rw [h1, h2, List.reverse_reverse]

/-- Idempotence of the src/main.go `title`, given that the title-case
mapping of the unicode tables is idempotent. -/
lemma titleA_idem (M : UnicodeModel) (hT : ∀ c, M.toTitle (M.toTitle c) = M.toTitle c)
    (s : String) : titleA M (titleA M s) = titleA M s := by
  cases hd : s.data with
  | nil => simp [titleA, hd]
  | cons r rest =>
    by_cases ht : M.isTitle r
    · have h1 : titleA M s = s := by simp [titleA, hd, ht]
      rw [h1]
      exact h1
    · have h1 : titleA M s = String.mk (M.toTitle r :: rest) := by simp [titleA, hd, ht]
      rw [h1]
      by_cases ht2 : M.isTitle (M.toTitle r)
      · simp [titleA, ht2]
      · simp [titleA, ht2, hT r]

/-- Idempotence of the part_000 `title`, additionally using that the
title-case mapping never produces a space character from a non-space. -/
lemma titleB_idem (M : UnicodeModel) (hT : ∀ c, M.toTitle (M.toTitle c) = M.toTitle c)
    (hS : ∀ c, M.isSpace c = false → M.isSpace (M.toTitle c) = false)
    (s : String) : titleB M (titleB M s) = titleB M s := by
  cases hd : trimList M.isSpace s.data with
  | nil =>
    have h1 : titleB M s = "" := by simp [titleB, trimSpace, hd]
    rw [h1]
    rfl
  | cons r rest =>
    have hfix : trimList M.isSpace (r :: rest) = r :: rest := by
      rw [← hd]
      exact trimList_fix _ _
    have hr : M.isSpace r = false :=
      head_not_of_dropWhile_cons (trimList_fix_parts hfix).1
    by_cases ht : M.isTitle r
    · have h1 : titleB M s = String.mk (r :: rest) := by simp [titleB, trimSpace, hd, ht]
      rw [h1]
      simp [titleB, trimSpace, hfix, ht]
    · have h1 : titleB M s = String.mk (M.toTitle r :: rest) := by
        simp [titleB, trimSpace, hd, ht]
      rw [h1]
      have hfix2 : trimList M.isSpace (M.toTitle r :: rest) = M.toTitle r :: rest :=
        trimList_replace_head hfix (hS r hr)
      by_cases ht2 : M.isTitle (M.toTitle r)
      · simp [titleB, trimSpace, hfix2, ht2]
      · simp [titleB, trimSpace, hfix2, ht2, hT r]

/-- C6: for any unicode tables whose title-case mapping is idempotent and
maps non-space characters to non-space characters — both facts of the real
tables — both variants of the title-casing function are idempotent on every
string. -/
theorem c6_theorem (M : UnicodeModel)
    (hT : ∀ c, M.toTitle (M.toTitle c) = M.toTitle c)
    (hS : ∀ c, M.isSpace c = false → M.isSpace (M.toTitle c) = false) :
    ∀ s, titleA M (titleA M s) = titleA M s ∧ titleB M (titleB M s) = titleB M s :=
  fun s => ⟨titleA_idem M hT s, titleB_idem M hT hS s⟩

/-- Witness for C6: idempotence instantiated at a table satisfying both
hypotheses trivially. -/
theorem c6_witness :
    titleA idUnicode (titleA idUnicode " mixed Case ") = titleA idUnicode " mixed Case " ∧
    titleB idUnicode (titleB idUnicode " mixed Case ") = titleB idUnicode " mixed Case " :=
  c6_theorem idUnicode (fun _ => rfl) (fun _ h => h) " mixed Case "

/-- Strict lexicographic order on parsed versions, the proposition
`semverGT` decides. -/
def svLT (a b : SemVer) : Prop :=
  a.major < b.major ∨ (a.major = b.major ∧
    (a.minor < b.minor ∨ (a.minor = b.minor ∧ a.patch < b.patch)))

lemma semverGT_iff {a b : SemVer} : semverGT a b = true ↔ svLT b a := by
  unfold semverGT svLT
  split_ifs <;> simp_all <;> omega

lemma semverGT_false_iff {a b : SemVer} : semverGT a b = false ↔ ¬ svLT b a := by
  rw [← semverGT_iff]
  cases semverGT a b <;> simp

lemma semverGT_irrefl (v : SemVer) : semverGT v v = false := by
  simp [semverGT]

/-- Invariant of the tag-scan loop: starting from a consistent accumulator,
it returns `none` only when the accumulator was empty and no line parses;
and when it returns a version with its spelling, that spelling parses to
that version, comes from the accumulator or the list, and no parsed line
(nor the accumulator) is strictly greater. -/
lemma lastTagLoop_spec (ts : List String) :
    ∀ acc : Option (SemVer × String),
      (∀ v s, acc = some (v, s) → semverParse s = some v) →
      (lastTagLoop ts acc = none → acc = none ∧ ∀ t ∈ ts, semverParse t = none) ∧
      (∀ v s, lastTagLoop ts acc = some (v, s) →
        semverParse s = some v ∧
        (acc = some (v, s) ∨ s ∈ ts) ∧
        (∀ t ∈ ts, ∀ w, semverParse t = some w → semverGT w v = false) ∧
        (∀ v0 s0, acc = some (v0, s0) → semverGT v0 v = false)) := by
  induction ts with
  | nil =>
    intro acc hacc
    constructor
    · intro h
      exact ⟨h, by simp⟩
    · intro v s h
      simp only [lastTagLoop] at h
      refine ⟨hacc v s h, Or.inl h, by simp, ?_⟩
      intro v0 s0 h0
      rw [h0] at h
      injection h with h'
      injection h' with hv hs
      subst hv
      exact semverGT_irrefl _
  | cons t ts ih =>
    intro acc hacc
    cases hp : semverParse t with
    | none =>
      have hstep : lastTagLoop (t :: ts) acc = lastTagLoop ts acc := by
        rw [lastTagLoop, hp]
      obtain ⟨ihn, ihs⟩ := ih acc hacc
      constructor
      · intro h
        rw [hstep] at h
        obtain ⟨h1, h2⟩ := ihn h
        refine ⟨h1, ?_⟩
        intro x hx
        rcases List.mem_cons.mp hx with hx | hx
        · rw [hx]; exact hp
        · exact h2 x hx
      · intro v s h
        rw [hstep] at h
        obtain ⟨hparse, hmem, hmax, hael⟩ := ihs v s h
        refine ⟨hparse, ?_, ?_, hael⟩
        · rcases hmem with hm | hm
          · exact Or.inl hm
          · exact Or.inr (List.mem_cons_of_mem _ hm)
        · intro x hx w hw
          rcases List.mem_cons.mp hx with hx | hx
          · rw [hx, hp] at hw
            cases hw
          · exact hmax x hx w hw
    | some w =>
      cases acc with
      | none =>
        have hstep : lastTagLoop (t :: ts) none = lastTagLoop ts (some (w, t)) := by
          rw [lastTagLoop, hp]
        have hacc' : ∀ v s, (some (w, t) : Option (SemVer × String)) = some (v, s) →
            semverParse s = some v := by
          intro v s h
          cases h
          exact hp
        obtain ⟨ihn, ihs⟩ := ih (some (w, t)) hacc'
        constructor
        · intro h
          rw [hstep] at h
          obtain ⟨h1, _⟩ := ihn h
          cases h1
        · intro v s h
          rw [hstep] at h
          obtain ⟨hparse, hmem, hmax, hael⟩ := ihs v s h
          refine ⟨hparse, ?_, ?_, ?_⟩
          · rcases hmem with hm | hm
            · cases hm
              exact Or.inr (List.mem_cons_self _ _)
            · exact Or.inr (List.mem_cons_of_mem _ hm)
          · intro x hx w' hw'
            rcases List.mem_cons.mp hx with hx | hx
            · rw [hx, hp] at hw'
              injection hw' with hww
              subst hww
              exact hael w t rfl
            · exact hmax x hx w' hw'
          · intro v0 s0 h0
            cases h0
      | some a =>
        obtain ⟨mv, ms⟩ := a
        by_cases hgt : semverGT w mv = true
        · have hstep : lastTagLoop (t :: ts) (some (mv, ms)) = lastTagLoop ts (some (w, t)) := by
            rw [lastTagLoop, hp]
            simp [hgt]
          have hacc' : ∀ v s, (some (w, t) : Option (SemVer × String)) = some (v, s) →
              semverParse s = some v := by
            intro v s h
            cases h
            exact hp
          obtain ⟨ihn, ihs⟩ := ih (some (w, t)) hacc'
          constructor
          · intro h
            rw [hstep] at h
            obtain ⟨h1, _⟩ := ihn h
            cases h1
          · intro v s h
            rw [hstep] at h
            obtain ⟨hparse, hmem, hmax, hael⟩ := ihs v s h
            refine ⟨hparse, ?_, ?_, ?_⟩
            · rcases hmem with hm | hm
              · cases hm
                exact Or.inr (List.mem_cons_self _ _)
              · exact Or.inr (List.mem_cons_of_mem _ hm)
            · intro x hx w' hw'
              rcases List.mem_cons.mp hx with hx | hx
              · rw [hx, hp] at hw'
                injection hw' with hww
                subst hww
                exact hael w t rfl
              · exact hmax x hx w' hw'
            · intro v0 s0 h0
              injection h0 with h0'
              injection h0' with hv0 hs0
              subst hv0
              have h1 := semverGT_false_iff.mp (hael w t rfl)
              have h2 := semverGT_iff.mp hgt
              rw [semverGT_false_iff]
              unfold svLT at *
              omega
        · have hgt' : semverGT w mv = false := by
            cases hh : semverGT w mv
            · rfl
            · exact absurd hh hgt
          have hstep : lastTagLoop (t :: ts) (some (mv, ms)) = lastTagLoop ts (some (mv, ms)) := by
            rw [lastTagLoop, hp]
            simp [hgt']
          obtain ⟨ihn, ihs⟩ := ih (some (mv, ms)) hacc
          constructor
          · intro h
            rw [hstep] at h
            obtain ⟨h1, _⟩ := ihn h
            cases h1
          · intro v s h
            rw [hstep] at h
            obtain ⟨hparse, hmem, hmax, hael⟩ := ihs v s h
            refine ⟨hparse, ?_, ?_, hael⟩
            · rcases hmem with hm | hm
              · exact Or.inl hm
              · exact Or.inr (List.mem_cons_of_mem _ hm)
            · intro x hx w' hw'
              rcases List.mem_cons.mp hx with hx | hx
              · rw [hx, hp] at hw'
                injection hw' with hww
                subst hww
                have h1 := semverGT_false_iff.mp hgt'
                have h2 := semverGT_false_iff.mp (hael mv ms rfl)
                rw [semverGT_false_iff]
                unfold svLT at *
                omega
              · exact hmax x hx w' hw'

/-- C8: `getLastGitTag` never fails on a delivered tag list — every
unparseable line is skipped — and returns either the empty string (no valid
tag) or the original spelling of a tag from the list that parses and that no
parsed tag strictly exceeds; on the list ["not-a-version", "1.2.0"] it
returns exactly "1.2.0". -/
theorem c8_theorem :
    (∀ tags : List String,
      getLastGitTag tags = "" ∨
      (getLastGitTag tags ∈ tags ∧
        ∃ v, semverParse (getLastGitTag tags) = some v ∧
          ∀ t ∈ tags, ∀ w, semverParse t = some w → semverGT w v = false)) ∧
    getLastGitTag ["not-a-version", "1.2.0"] = "1.2.0" := by
  constructor
  · intro tags
    cases hm : lastTagLoop tags none with
    | none =>
      left
      rw [getLastGitTag, hm]
    | some a =>
      obtain ⟨v, s⟩ := a
      right
      obtain ⟨hparse, hmem, hmax, _⟩ :=
        (lastTagLoop_spec tags none (by intro v s h; cases h)).2 v s hm
      have hs : getLastGitTag tags = s := by rw [getLastGitTag, hm]
      rcases hmem with hmem | hmem
      · cases hmem
      · rw [hs]
        exact ⟨hmem, v, hparse, hmax⟩
  · decide

/-- Witness for C8: the soft-failure scenario of the spec, plus the general
clause instantiated at the same list. -/
theorem c8_witness :
    getLastGitTag ["not-a-version", "1.2.0"] = "1.2.0" ∧
    (getLastGitTag ["not-a-version", "1.2.0"] = "" ∨
     (getLastGitTag ["not-a-version", "1.2.0"] ∈ (["not-a-version", "1.2.0"] : List String) ∧
      ∃ v, semverParse (getLastGitTag ["not-a-version", "1.2.0"]) = some v ∧
        ∀ t ∈ (["not-a-version", "1.2.0"] : List String), ∀ w,
          semverParse t = some w → semverGT w v = false)) :=
  ⟨c8_theorem.2, c8_theorem.1 ["not-a-version", "1.2.0"]⟩

end Changeloger
